import Mathlib

/-!
Verification development for the MCP (Model Context Protocol) core of the
BrainyAI repository: the tool registry (src/libs/mcp/MCPToolRegistry.ts),
the protocol clients (src/libs/mcp/MCPClient.ts, src/libs/mcp/BrowserMCPClient.ts)
and the process manager (src/libs/mcp/MCPProcessManager.ts).

The TypeScript classes are embedded shallowly:

* A JavaScript Map is modelled as an association list with Map.set,
  Map.get and Map.delete semantics (`mapSet`, `mapGet`, `mapDelete`);
  insertion order is preserved, as in JS.
* Methods become pure Lean functions from the receiver state (plus an
  environment value standing for the outcome of the asynchronous I/O the
  method performs) to the new state, an ordered trace of observable
  actions (status writes, event emissions, client construction,
  dispatches) and an `Except` result standing for resolve/reject.
* Template interpolation of an optional value (`${tool.serverName}`)
  yields the string "undefined" when the value is absent, and the
  JavaScript `x || d` fallback treats the empty string as falsy; both are
  modelled explicitly (`jsInterp`, `jsOrString`).
-/

set_option maxHeartbeats 1000000

/-! ## JavaScript Map model (association lists, insertion ordered) -/

/-- Lookup in a JS Map: first entry with the given key. -/
def mapGet {α : Type} : List (String × α) → String → Option α
  | [], _ => none
  | p :: rest, k => if p.1 = k then some p.2 else mapGet rest k

/-- JS Map.set: replace the value of an existing key in place, otherwise
append the new entry at the end (JS Maps preserve insertion order). -/
def mapSet {α : Type} : List (String × α) → String → α → List (String × α)
  | [], k, v => [(k, v)]
  | p :: rest, k, v => if p.1 = k then (k, v) :: rest else p :: mapSet rest k v

/-- JS Map.delete: drop every entry with the given key (a real JS Map has
at most one). -/
def mapDelete {α : Type} (m : List (String × α)) (k : String) : List (String × α) :=
  m.filter (fun p => p.1 ≠ k)

/-- Template interpolation of an optional string: JS prints "undefined"
for a missing value. -/
def jsInterp : Option String → String
  | some s => s
  | none => "undefined"

/-- JS fallback `x || d` on an optional string: both a missing value and
the empty string (falsy) fall through to the default. -/
def jsOrString (o : Option String) (d : String) : String :=
  match o with
  | some s => if s = "" then d else s
  | none => d

/-- Check whether the first character list occurs at the head of the second. -/
def leadsWith : List Char → List Char → Bool
  | [], _ => true
  | _ :: _, [] => false
  | a :: as, b :: bs => a == b && leadsWith as bs

/-- Check whether the first character list occurs contiguously anywhere in
the second. -/
def occursIn (pat : List Char) : List Char → Bool
  | [] => leadsWith pat []
  | l@(_ :: rest) => leadsWith pat l || occursIn pat rest

/-- JS String.prototype.includes: contiguous substring containment. -/
def jsIncludes (s pat : String) : Bool :=
  occursIn pat.data s.data

/-- JS String.prototype.toLowerCase, modelled characterwise (the tool
names involved are plain ASCII). -/
def jsToLower (s : String) : String :=
  ⟨s.data.map Char.toLower⟩

/-! ## Data model (src/libs/mcp/types.ts) -/

/-- MCPTool from types.ts. The arbitrary `inputSchema: any` value is
modelled opaquely as a string. -/
structure MCPTool where
  name : String
  description : Option String := none
  inputSchema : String := ""
  serverName : Option String := none
deriving Repr, DecidableEq

/-! ## Tool registry (src/libs/mcp/MCPToolRegistry.ts) -/

/-- State of an MCPToolRegistry instance: the flat tool map keyed by the
interpolated "server:name" string, and the per-server grouping. -/
structure MCPToolRegistry where
  tools : List (String × MCPTool)
  serverTools : List (String × List MCPTool)
deriving Repr, DecidableEq

/-- Registry state of a freshly constructed MCPToolRegistry. -/
def MCPToolRegistry.empty : MCPToolRegistry := ⟨[], []⟩

/-- Flat map key computed by registerTool: the template string
interpolating the optional serverName (literally "undefined" when absent)
followed by a colon and the tool name. -/
def toolKey (t : MCPTool) : String :=
  jsInterp t.serverName ++ ":" ++ t.name

/-- De-duplicating insertion into a per-server tool list, modelling the
findIndex / in-place assignment / push logic of registerTool: the first
entry with the same tool name is replaced, otherwise the tool is appended. -/
def groupInsert : List MCPTool → MCPTool → List MCPTool
  | [], tool => [tool]
  | t :: rest, tool =>
      if t.name = tool.name then tool :: rest else t :: groupInsert rest tool

/-- MCPToolRegistry.registerTool: store under the interpolated flat key,
then insert into the group keyed by `tool.serverName || "unknown"`. -/
def MCPToolRegistry.registerTool (r : MCPToolRegistry) (tool : MCPTool) : MCPToolRegistry :=
  let tools := mapSet r.tools (toolKey tool) tool
  let serverName := jsOrString tool.serverName "unknown"
  let sts := (mapGet r.serverTools serverName).getD []
  let sts' := groupInsert sts tool
  ⟨tools, mapSet r.serverTools serverName sts'⟩

/-- MCPToolRegistry.registerTools: fold registerTool over the list. -/
def MCPToolRegistry.registerTools (r : MCPToolRegistry) (ts : List MCPTool) : MCPToolRegistry :=
  ts.foldl MCPToolRegistry.registerTool r

/-- MCPToolRegistry.getTool: flat lookup under "server:name". -/
def MCPToolRegistry.getTool (r : MCPToolRegistry) (serverName toolName : String) : Option MCPTool :=
  mapGet r.tools (serverName ++ ":" ++ toolName)

/-- MCPToolRegistry.getAllTools: the values of the flat map in insertion
order. -/
def MCPToolRegistry.getAllTools (r : MCPToolRegistry) : List MCPTool :=
  r.tools.map Prod.snd

/-- MCPToolRegistry.getServerTools: the group stored under the given
server name, or the empty list. -/
def MCPToolRegistry.getServerTools (r : MCPToolRegistry) (serverName : String) : List MCPTool :=
  (mapGet r.serverTools serverName).getD []

/-- MCPToolRegistry.categorizeToolByName: lowercase, then an if-chain of
substring checks; returns one of the five fixed category keys. -/
def MCPToolRegistry.categorizeToolByName (toolName : String) : String :=
  let name := jsToLower toolName
  if jsIncludes name "file" || jsIncludes name "dir" || jsIncludes name "path" ||
     jsIncludes name "read" || jsIncludes name "write" || jsIncludes name "list" then
    "filesystem"
  else if jsIncludes name "http" || jsIncludes name "fetch" || jsIncludes name "request" ||
          jsIncludes name "url" || jsIncludes name "api" then
    "network"
  else if jsIncludes name "json" || jsIncludes name "csv" || jsIncludes name "data" ||
          jsIncludes name "parse" || jsIncludes name "format" then
    "data"
  else if jsIncludes name "system" || jsIncludes name "process" || jsIncludes name "env" ||
          jsIncludes name "exec" || jsIncludes name "command" then
    "system"
  else
    "other"

/-- Record with the five fixed category buckets used by getToolsByCategory. -/
structure ToolCategories where
  filesystem : List MCPTool := []
  network : List MCPTool := []
  data : List MCPTool := []
  system : List MCPTool := []
  other : List MCPTool := []
deriving Repr, DecidableEq

/-- Push a tool into the bucket addressed by the category key returned by
categorizeToolByName (the record indexing `categories[category].push`). -/
def pushCategory (c : ToolCategories) (cat : String) (t : MCPTool) : ToolCategories :=
  if cat = "filesystem" then { c with filesystem := c.filesystem ++ [t] }
  else if cat = "network" then { c with network := c.network ++ [t] }
  else if cat = "data" then { c with data := c.data ++ [t] }
  else if cat = "system" then { c with system := c.system ++ [t] }
  else { c with other := c.other ++ [t] }

/-- MCPToolRegistry.getToolsByCategory: bucket every registered tool by
categorizeToolByName of its name, in getAllTools order. -/
def MCPToolRegistry.getToolsByCategory (r : MCPToolRegistry) : ToolCategories :=
  r.getAllTools.foldl
    (fun c t => pushCategory c (MCPToolRegistry.categorizeToolByName t.name) t) {}

/-- MCPToolRegistry.clearServerTools: look up the group of the given
server name, delete the flat key built from the passed server name and
each grouped tool name, then delete the group itself. -/
def MCPToolRegistry.clearServerTools (r : MCPToolRegistry) (serverName : String) : MCPToolRegistry :=
  let sts := (mapGet r.serverTools serverName).getD []
  let tools := sts.foldl (fun m t => mapDelete m (serverName ++ ":" ++ t.name)) r.tools
  ⟨tools, mapDelete r.serverTools serverName⟩

/-! ## Errors (src/libs/mcp/types.ts) -/

/-- MCPError from types.ts (extends Error, name fixed to "MCPError").
The optional originalError is kept as its stringified form. -/
structure MCPError where
  message : String
  code : String
  serverName : Option String := none
  originalError : Option String := none
deriving Repr, DecidableEq

def SERVER_START_FAILED : String := "SERVER_START_FAILED"
def SERVER_CONNECTION_FAILED : String := "SERVER_CONNECTION_FAILED"
def TOOL_CALL_FAILED : String := "TOOL_CALL_FAILED"

/-- JS String(error) on an MCPError instance: Error.prototype.toString
with the fixed name "MCPError". -/
def MCPError.jsString (e : MCPError) : String :=
  if e.message = "" then "MCPError" else "MCPError: " ++ e.message

/-! ## Server config and protocol clients -/

/-- MCPServerConfig from types.ts. -/
structure MCPServerConfig where
  command : String
  args : List String
  env : Option (List (String × String)) := none
  autoStart : Option Bool := none
  timeout : Option Nat := none
  cwd : Option String := none
deriving Repr, DecidableEq

/-- The value of an MCPClient instance (src/libs/mcp/MCPClient.ts): the
browser build stores only the server name and config; it spawns nothing. -/
structure MCPClient where
  serverName : String
  config : MCPServerConfig
deriving Repr, DecidableEq

/-- MCPClient.connect in the browser build: unconditionally rejects. -/
def MCPClient.connectResult (c : MCPClient) : Except MCPError Unit :=
  .error
    { message := "MCPClient.connect() is not supported in browser environment. Use BrowserMCPClient instead."
      code := SERVER_CONNECTION_FAILED
      serverName := some c.serverName }

/-- MCPClient.listTools in the browser build: unconditionally rejects
with an MCPError; it never resolves with an array. -/
def MCPClient.listTools (c : MCPClient) : Except MCPError (List MCPTool) :=
  .error
    { message := "MCPClient methods are not supported in browser environment."
      code := TOOL_CALL_FAILED
      serverName := some c.serverName }

/-- The value of a BrowserMCPClient instance, restricted to the fields
listToolsViaHTTP reads. -/
structure BrowserMCPClient where
  serverName : String
  url : String
deriving Repr, DecidableEq

/-- Raw tool object decoded from the HTTP response body. -/
structure RawToolEntry where
  name : String
  description : Option String := none
  inputSchema : String := ""
deriving Repr, DecidableEq

/-- Outcome of the fetch performed by listToolsViaHTTP: either the fetch
itself rejects (network error, stringified), or an HTTP response arrives
with its ok flag, status, statusText and optional decoded tools field. -/
inductive FetchOutcome where
  | netFail (msg : String)
  | httpResp (ok : Bool) (status : Nat) (statusText : String)
      (tools : Option (List RawToolEntry))
deriving Repr, DecidableEq

/-- BrowserMCPClient.listToolsViaHTTP: on a non-ok response an Error is
thrown and, like a fetch rejection, caught and re-thrown as an MCPError;
on an ok response the optional tools field is mapped to MCPTool values
tagged with this serverName (empty list if the field is absent). -/
def BrowserMCPClient.listToolsViaHTTP (c : BrowserMCPClient) (env : FetchOutcome) :
    Except MCPError (List MCPTool) :=
  match env with
  | .netFail msg =>
      .error { message := "Failed to list tools: " ++ msg
               code := TOOL_CALL_FAILED
               serverName := some c.serverName
               originalError := some msg }
  | .httpResp ok status statusText toolsField =>
      if ok then
        .ok ((toolsField.getD []).map fun rt =>
          { name := rt.name
            description := rt.description
            inputSchema := rt.inputSchema
            serverName := some c.serverName })
      else
        .error { message := "Failed to list tools: Error: HTTP " ++ toString status ++ ": " ++ statusText
                 code := TOOL_CALL_FAILED
                 serverName := some c.serverName
                 originalError := some ("Error: HTTP " ++ toString status ++ ": " ++ statusText) }

/-! ## Server status (src/libs/mcp/types.ts MCPServerStatus) -/

/-- The five lifecycle states of MCPServerStatus.status. -/
inductive MCPServerState where
  | stopped
  | starting
  | running
  | error
  | stopping
deriving Repr, DecidableEq

/-- The serverInfo record stored inside MCPServerStatus. -/
structure MCPServerInfoEntry where
  name : String
  version : String
  protocolVersion : String
deriving Repr, DecidableEq

/-- MCPServerStatus from types.ts. -/
structure MCPServerStatus where
  name : String
  status : MCPServerState
  pid : Option Nat := none
  startTime : Option Nat := none
  error : Option String := none
  toolCount : Option Nat := none
  serverInfo : Option MCPServerInfoEntry := none
deriving Repr, DecidableEq

/-- Default status object built by getServerStatus and updateServerStatus
for a name with no stored entry. -/
def defaultStatus (name : String) : MCPServerStatus :=
  { name := name, status := .stopped }

/-- One argument object passed to updateServerStatus. Every call site
passes name and status; an outer none below means the field is absent
from the object literal (so the spread keeps the current value), while
serverInfo uses a nested option because the running update passes the
field explicitly with a possibly-undefined value (which does overwrite). -/
structure StatusPatch where
  status : MCPServerState
  startTime : Option Nat := none
  error : Option String := none
  toolCount : Option Nat := none
  serverInfo : Option (Option MCPServerInfoEntry) := none
deriving Repr, DecidableEq

/-- The object spread performed by updateServerStatus:
newStatus = the current status (or the stopped default) overridden by
every field present in the patch. -/
def applyPatch (cur : MCPServerStatus) (name : String) (p : StatusPatch) : MCPServerStatus :=
  { name := name
    status := p.status
    pid := cur.pid
    startTime := match p.startTime with | some v => some v | none => cur.startTime
    error := match p.error with | some v => some v | none => cur.error
    toolCount := match p.toolCount with | some v => some v | none => cur.toolCount
    serverInfo := match p.serverInfo with | some v => v | none => cur.serverInfo }

/-- MCPProcessManager.updateServerStatus on the status map; also returns
the stored merged status so callers can record it in the trace. -/
def updateServerStatus (m : List (String × MCPServerStatus)) (name : String) (p : StatusPatch) :
    List (String × MCPServerStatus) × MCPServerStatus :=
  let cur := (mapGet m name).getD (defaultStatus name)
  let st := applyPatch cur name p
  (mapSet m name st, st)

/-! ## Process manager (src/libs/mcp/MCPProcessManager.ts) -/

/-- Event type union from types.ts. -/
inductive MCPEventType where
  | server_started
  | server_stopped
  | server_error
  | tool_call_started
  | tool_call_completed
  | tool_call_failed
deriving Repr, DecidableEq

/-- Observable actions performed by a manager method, in program order:
status-map writes (recording the merged status that was stored), client
construction, the connect / disconnect / tool-call dispatches to the
client, and event emissions. Event payloads and delivery to listeners
(which is wrapped per listener in try/catch) are elided. -/
inductive MgrAction where
  | setStatus (name : String) (st : MCPServerStatus)
  | createClient (name : String)
  | clientConnect (name : String)
  | clientDisconnect (name : String)
  | dispatchToolCall (server : String) (tool : String)
  | emit (t : MCPEventType) (server : String)
deriving Repr, DecidableEq

/-- State of an MCPProcessManager instance: the live client map and the
status map. The listener map and the health-check interval handle do not
participate in the claims and are elided. -/
structure MCPProcessManager where
  clients : List (String × MCPClient)
  serverStatuses : List (String × MCPServerStatus)
deriving Repr, DecidableEq

/-- Raw result of client.getServerInfo, before the defaulting performed
by startServer. -/
structure RawServerInfoInner where
  name : Option String := none
  version : Option String := none
deriving Repr, DecidableEq

/-- Raw server-info object, with optional chaining targets. -/
structure RawServerInfo where
  serverInfo : Option RawServerInfoInner := none
  protocolVersion : Option String := none
deriving Repr, DecidableEq

/-- The serverInfo entry stored by startServer on success:
`serverInfo.serverInfo?.name || serverName` and the "unknown" defaults. -/
def serverInfoEntry (serverName : String) (si : RawServerInfo) : MCPServerInfoEntry :=
  { name := jsOrString (si.serverInfo.bind RawServerInfoInner.name) serverName
    version := jsOrString (si.serverInfo.bind RawServerInfoInner.version) "unknown"
    protocolVersion := jsOrString si.protocolVersion "unknown" }

deriving instance DecidableEq for Except

/-- Environment of one startServer call: the two Date.now() readings, the
outcome of client.connect(), and the outcomes of the getServerInfo and
listTools calls (whose rejections the source catches to null and to the
empty list respectively, inside startServer itself). For the browser
MCPClient, connect is in fact always MCPClient.connectResult, an error. -/
structure StartEnv where
  tStart : Nat := 0
  connect : Except MCPError Unit
  tRun : Nat := 0
  serverInfoResult : Except MCPError RawServerInfo := .error { message := "", code := "" }
  toolsResult : Except MCPError (List MCPTool) := .ok []
deriving Repr, DecidableEq

def startingPatch (t : Nat) : StatusPatch :=
  { status := .starting, startTime := some t }

def errorPatch (msg : String) : StatusPatch :=
  { status := .error, error := some msg }

def plainPatch (s : MCPServerState) : StatusPatch :=
  { status := s }

def runningPatch (t : Nat) (toolCount : Nat) (si : Option MCPServerInfoEntry) : StatusPatch :=
  { status := .running, startTime := some t, toolCount := some toolCount, serverInfo := some si }

/-- MCPProcessManager.startServer: set status starting, construct a fresh
client, connect; on connect rejection set status error, emit server_error
and re-throw as an MCPError; on success store the client (replacing any
previous client under that name), resolve server info (null on failure)
and tools (empty on failure), set status running and emit server_started. -/
def MCPProcessManager.startServer (m : MCPProcessManager) (serverName : String)
    (config : MCPServerConfig) (env : StartEnv) :
    MCPProcessManager × List MgrAction × Except MCPError Unit :=
  let (statuses1, st1) := updateServerStatus m.serverStatuses serverName (startingPatch env.tStart)
  let client : MCPClient := { serverName := serverName, config := config }
  match env.connect with
  | .error e =>
      let (statuses2, st2) := updateServerStatus statuses1 serverName (errorPatch e.jsString)
      (⟨m.clients, statuses2⟩,
       [.setStatus serverName st1, .createClient serverName, .clientConnect serverName,
        .setStatus serverName st2, .emit .server_error serverName],
       .error { message := "Failed to start MCP server " ++ serverName ++ ": " ++ e.jsString
                code := SERVER_START_FAILED
                serverName := some serverName
                originalError := some e.jsString })
  | .ok _ =>
      let clients1 := mapSet m.clients serverName client
      let tools := match env.toolsResult with | .ok ts => ts | .error _ => []
      let entry := match env.serverInfoResult with
        | .ok si => some (serverInfoEntry serverName si)
        | .error _ => none
      let (statuses2, st2) :=
        updateServerStatus statuses1 serverName (runningPatch env.tRun tools.length entry)
      (⟨clients1, statuses2⟩,
       [.setStatus serverName st1, .createClient serverName, .clientConnect serverName,
        .setStatus serverName st2, .emit .server_started serverName],
       .ok ())

/-- Environment of one stopServer call: the outcome of
client.disconnect() (unused when no client is stored). -/
structure StopEnv where
  disconnect : Except MCPError Unit
deriving Repr, DecidableEq

/-- MCPProcessManager.stopServer: set status stopping; if a client is
stored, disconnect it and, only after a successful disconnect, delete it
from the client map; then set status stopped and emit server_stopped. A
disconnect rejection jumps to the catch block, which sets status error
and re-throws as an MCPError without deleting the client. -/
def MCPProcessManager.stopServer (m : MCPProcessManager) (serverName : String) (env : StopEnv) :
    MCPProcessManager × List MgrAction × Except MCPError Unit :=
  let (statuses1, st1) := updateServerStatus m.serverStatuses serverName (plainPatch .stopping)
  match mapGet m.clients serverName with
  | some _ =>
      match env.disconnect with
      | .error e =>
          let (statuses2, st2) := updateServerStatus statuses1 serverName (errorPatch e.jsString)
          (⟨m.clients, statuses2⟩,
           [.setStatus serverName st1, .clientDisconnect serverName, .setStatus serverName st2],
           .error { message := "Failed to stop MCP server " ++ serverName ++ ": " ++ e.jsString
                    code := SERVER_START_FAILED
                    serverName := some serverName
                    originalError := some e.jsString })
      | .ok _ =>
          let clients1 := mapDelete m.clients serverName
          let (statuses2, st2) := updateServerStatus statuses1 serverName (plainPatch .stopped)
          (⟨clients1, statuses2⟩,
           [.setStatus serverName st1, .clientDisconnect serverName, .setStatus serverName st2,
            .emit .server_stopped serverName],
           .ok ())
  | none =>
      let (statuses2, st2) := updateServerStatus statuses1 serverName (plainPatch .stopped)
      (⟨m.clients, statuses2⟩,
       [.setStatus serverName st1, .setStatus serverName st2, .emit .server_stopped serverName],
       .ok ())

/-- MCPProcessManager.getServerStatus: the stored status or the stopped
default. The method performs no write; the manager state is returned
unchanged alongside the result to make that explicit. -/
def MCPProcessManager.getServerStatus (m : MCPProcessManager) (serverName : String) :
    MCPServerStatus × MCPProcessManager :=
  ((mapGet m.serverStatuses serverName).getD (defaultStatus serverName), m)

/-- MCPToolResult from types.ts, with the arbitrary result payload kept
opaque as a string. -/
structure MCPToolResult where
  callId : Option String := none
  success : Bool
  result : Option String := none
  error : Option String := none
  duration : Option Nat := none
deriving Repr, DecidableEq

/-- Environment of one callTool call: the outcome of client.callTool
(unused when no client is stored). -/
structure CallEnv where
  callResult : Except MCPError MCPToolResult
deriving Repr, DecidableEq

/-- MCPProcessManager.callTool: reject immediately (no events) when no
client is stored for the server; otherwise emit tool_call_started, then
dispatch, then emit exactly one of tool_call_completed or
tool_call_failed according to the outcome, re-throwing a failure. The
manager state is not modified by callTool. -/
def MCPProcessManager.callTool (m : MCPProcessManager) (serverName toolName : String)
    (env : CallEnv) : List MgrAction × Except MCPError MCPToolResult :=
  match mapGet m.clients serverName with
  | none =>
      ([], .error { message := "Server " ++ serverName ++ " is not running"
                    code := SERVER_CONNECTION_FAILED
                    serverName := some serverName })
  | some _ =>
      match env.callResult with
      | .ok r =>
          ([.emit .tool_call_started serverName, .dispatchToolCall serverName toolName,
            .emit .tool_call_completed serverName], .ok r)
      | .error e =>
          ([.emit .tool_call_started serverName, .dispatchToolCall serverName toolName,
            .emit .tool_call_failed serverName], .error e)

/-! ## Lemmas about the JS Map model -/

theorem mapGet_mapSet_self {α : Type} (m : List (String × α)) (k : String) (v : α) :
    mapGet (mapSet m k v) k = some v := by
  induction m with
  | nil => simp [mapSet, mapGet]
  | cons p rest ih =>
      obtain ⟨pk, pv⟩ := p
      by_cases h : pk = k
      · simp [mapSet, mapGet, h]
      · simp [mapSet, mapGet, h, ih]

theorem mapGet_mapSet_ne {α : Type} (m : List (String × α)) (k k' : String) (v : α)
    (h : k' ≠ k) : mapGet (mapSet m k v) k' = mapGet m k' := by
  have hks : ¬ (k = k') := fun hc => h hc.symm
  induction m with
  | nil => simp [mapSet, mapGet, hks]
  | cons p rest ih =>
      obtain ⟨pk, pv⟩ := p
      by_cases hp : pk = k
      · subst hp
        simp [mapSet, mapGet, hks]
      · by_cases hp' : pk = k'
        · simp [mapSet, mapGet, hp, hp', hks, h]
        · simp [mapSet, mapGet, hp, hp', ih]

theorem mapGet_mapDelete_self {α : Type} (m : List (String × α)) (k : String) :
    mapGet (mapDelete m k) k = none := by
  induction m with
  | nil => simp [mapDelete, mapGet]
  | cons p rest ih =>
      obtain ⟨pk, pv⟩ := p
      by_cases h : pk = k
      · simpa [mapDelete, mapGet, h] using ih
      · simpa [mapDelete, mapGet, h] using ih

theorem mapGet_mapDelete_ne {α : Type} (m : List (String × α)) (k k' : String)
    (h : k' ≠ k) : mapGet (mapDelete m k) k' = mapGet m k' := by
  induction m with
  | nil => simp [mapDelete, mapGet]
  | cons p rest ih =>
      obtain ⟨pk, pv⟩ := p
      by_cases hp : pk = k
      · subst hp
        have : ¬ (pk = k') := fun hc => h hc.symm
        simp [mapDelete, mapGet, this]
        simpa [mapDelete] using ih
      · by_cases hp' : pk = k'
        · simp [mapDelete, mapGet, hp, hp', h]
        · simp [mapDelete, mapGet, hp, hp']
          simpa [mapDelete] using ih

theorem mapGet_mem {α : Type} {m : List (String × α)} {k : String} {v : α}
    (h : mapGet m k = some v) : (k, v) ∈ m := by
  induction m with
  | nil => simp [mapGet] at h
  | cons p rest ih =>
      obtain ⟨pk, pv⟩ := p
      by_cases hp : pk = k
      · simp [mapGet, hp] at h
        subst hp
        subst h
        exact List.mem_cons_self _ _
      · simp [mapGet, hp] at h
        exact List.mem_cons_of_mem _ (ih h)

theorem mapSet_countP_key {α : Type} (m : List (String × α)) (k : String) (v : α)
    (hnd : (m.map Prod.fst).Nodup) :
    (mapSet m k v).countP (fun p => p.1 == k) = 1 := by
  induction m with
  | nil => simp [mapSet, List.countP_cons]
  | cons p rest ih =>
      obtain ⟨pk, pv⟩ := p
      simp only [List.map_cons, List.nodup_cons] at hnd
      by_cases h : pk = k
      · subst h
        have hz : rest.countP (fun q => q.1 == pk) = 0 := by
          apply List.countP_eq_zero.mpr
          intro q hq
          simp only [beq_iff_eq]
          intro hqk
          exact hnd.1 (hqk ▸ List.mem_map_of_mem Prod.fst hq)
        simp [mapSet, List.countP_cons, hz]
      · simp [mapSet, h, List.countP_cons, ih hnd.2]

/-- A stringified MCPError is never the empty string. -/
theorem MCPError.jsString_ne_empty (e : MCPError) : e.jsString ≠ "" := by
  unfold MCPError.jsString
  by_cases h : e.message = ""
  · simp [h]
  · simp only [h, if_false]
    intro hc
    have h2 := congrArg String.length hc
    simp [String.length_append] at h2
    exact absurd h2.1 (by decide)

/-- Terminal tool-call events of the process manager. -/
def isTerminalToolEvent : MgrAction → Bool
  | .emit .tool_call_completed _ => true
  | .emit .tool_call_failed _ => true
  | _ => false

/-! ## Claim C1: double-start behaviour of startServer -/

def c1Config : MCPServerConfig := { command := "npx", args := ["-y", "srv"] }

def c1Client : MCPClient := { serverName := "s", config := c1Config }

def c1State : MCPProcessManager :=
  ⟨[("s", c1Client)], [("s", { name := "s", status := .running })]⟩

def c1EnvOk : StartEnv := { connect := .ok () }

/-- C1 (counterexample): calling startServer on the name "s", which
already has a live client with status running, is not a no-op — the
start sequence writes status starting to the status map and constructs a
fresh client, refuting the claimed guard. -/
theorem c1_counterexample :
    mapGet c1State.clients "s" = some c1Client ∧
    (mapGet c1State.serverStatuses "s").map MCPServerStatus.status = some .running ∧
    (MgrAction.setStatus "s" { name := "s", status := .starting, startTime := some 0 } ∈
      (c1State.startServer "s" c1Config c1EnvOk).2.1) ∧
    MgrAction.createClient "s" ∈ (c1State.startServer "s" c1Config c1EnvOk).2.1 := by
  decide

/-- C1 (amended claim): startServer has no double-start guard. Even when
the name already has a live client with status running, it re-runs the
full sequence: it writes status starting, constructs a fresh client,
never disconnects the old one, and on a successful connect replaces the
stored client with the fresh one (so the map still holds exactly one
client for the name), sets status running and returns success. -/
theorem c1_theorem (m : MCPProcessManager) (serverName : String) (config : MCPServerConfig)
    (env : StartEnv) (c : MCPClient)
    (hc : mapGet m.clients serverName = some c)
    (hnd : (m.clients.map Prod.fst).Nodup)
    (hok : env.connect = .ok ()) :
    (∃ st, MgrAction.setStatus serverName st ∈ (m.startServer serverName config env).2.1 ∧
        st.status = .starting) ∧
    MgrAction.createClient serverName ∈ (m.startServer serverName config env).2.1 ∧
    MgrAction.clientDisconnect serverName ∉ (m.startServer serverName config env).2.1 ∧
    mapGet (m.startServer serverName config env).1.clients serverName =
      some { serverName := serverName, config := config } ∧
    ((m.startServer serverName config env).1.clients.countP (fun p => p.1 == serverName)) = 1 ∧
    (m.startServer serverName config env).2.2 = .ok () ∧
    (mapGet (m.startServer serverName config env).1.serverStatuses serverName).map
      MCPServerStatus.status = some .running := by
  refine ⟨?_, ?_, ?_, ?_, ?_, ?_, ?_⟩
  · exact ⟨applyPatch ((mapGet m.serverStatuses serverName).getD (defaultStatus serverName))
      serverName (startingPatch env.tStart),
      by simp [MCPProcessManager.startServer, hok, updateServerStatus], rfl⟩
  · simp [MCPProcessManager.startServer, hok, updateServerStatus]
  · simp [MCPProcessManager.startServer, hok, updateServerStatus]
  · simp only [MCPProcessManager.startServer, hok, updateServerStatus]
    exact mapGet_mapSet_self _ _ _
  · simp only [MCPProcessManager.startServer, hok, updateServerStatus]
    exact mapSet_countP_key _ _ _ hnd
  · simp [MCPProcessManager.startServer, hok]
  · simp only [MCPProcessManager.startServer, hok, updateServerStatus]
    rw [mapGet_mapSet_self]
    rfl

/-- C1 (witness): the amended theorem applied to the concrete
already-running state. -/
theorem c1_witness :
    (∃ st, MgrAction.setStatus "s" st ∈ (c1State.startServer "s" c1Config c1EnvOk).2.1 ∧
        st.status = .starting) ∧
    MgrAction.createClient "s" ∈ (c1State.startServer "s" c1Config c1EnvOk).2.1 ∧
    MgrAction.clientDisconnect "s" ∉ (c1State.startServer "s" c1Config c1EnvOk).2.1 ∧
    mapGet (c1State.startServer "s" c1Config c1EnvOk).1.clients "s" =
      some { serverName := "s", config := c1Config } ∧
    ((c1State.startServer "s" c1Config c1EnvOk).1.clients.countP (fun p => p.1 == "s")) = 1 ∧
    (c1State.startServer "s" c1Config c1EnvOk).2.2 = .ok () ∧
    (mapGet (c1State.startServer "s" c1Config c1EnvOk).1.serverStatuses "s").map
      MCPServerStatus.status = some .running :=
  c1_theorem c1State "s" c1Config c1EnvOk c1Client (by decide) (by decide) (by decide)

/-! ## Claim C2: stopServer when disconnect fails -/

def c2Config : MCPServerConfig := { command := "node", args := [] }

def c2Client : MCPClient := { serverName := "s", config := c2Config }

def c2State : MCPProcessManager :=
  ⟨[("s", c2Client)], [("s", { name := "s", status := .running })]⟩

def c2Err : MCPError := { message := "disconnect failed", code := "X" }

def c2Env : StopEnv := ⟨.error c2Err⟩

/-- C2 (counterexample): with a live client at "s" whose disconnect
fails, stopServer rejects with an MCPError (the failure is propagated to
the caller) and the failed client is still present in the live client
map — it is not removed. -/
theorem c2_counterexample :
    mapGet c2State.clients "s" = some c2Client ∧
    (c2State.stopServer "s" c2Env).2.2 =
      .error { message := "Failed to stop MCP server s: MCPError: disconnect failed"
               code := SERVER_START_FAILED
               serverName := some "s"
               originalError := some "MCPError: disconnect failed" } ∧
    mapGet (c2State.stopServer "s" c2Env).1.clients "s" = some c2Client := by
  decide

/-- C2 (amended claim): when disconnect fails during stopServer, the
status transitions to error with the stringified failure recorded, but
the failure IS propagated to the caller as a rejection, and the failed
client is NOT removed from the live client map (the whole client map is
left unchanged). -/
theorem c2_theorem (m : MCPProcessManager) (serverName : String) (env : StopEnv)
    (c : MCPClient) (e : MCPError)
    (hc : mapGet m.clients serverName = some c)
    (hd : env.disconnect = .error e) :
    (∃ st, mapGet (m.stopServer serverName env).1.serverStatuses serverName = some st ∧
      st.status = .error ∧ st.error = some e.jsString) ∧
    (m.stopServer serverName env).1.clients = m.clients ∧
    mapGet (m.stopServer serverName env).1.clients serverName = some c ∧
    (∃ err, (m.stopServer serverName env).2.2 = .error err ∧
      err.code = SERVER_START_FAILED) := by
  refine ⟨?_, ?_, ?_, ?_⟩
  · simp only [MCPProcessManager.stopServer, hc, hd, updateServerStatus]
    exact ⟨_, mapGet_mapSet_self _ _ _, rfl, rfl⟩
  · simp [MCPProcessManager.stopServer, hc, hd]
  · simp [MCPProcessManager.stopServer, hc, hd]
  · simp only [MCPProcessManager.stopServer, hc, hd, updateServerStatus]
    exact ⟨_, rfl, rfl⟩

/-- C2 (witness): the amended theorem applied to the concrete failing
disconnect. -/
theorem c2_witness :
    (∃ st, mapGet (c2State.stopServer "s" c2Env).1.serverStatuses "s" = some st ∧
      st.status = .error ∧ st.error = some c2Err.jsString) ∧
    (c2State.stopServer "s" c2Env).1.clients = c2State.clients ∧
    mapGet (c2State.stopServer "s" c2Env).1.clients "s" = some c2Client ∧
    (∃ err, (c2State.stopServer "s" c2Env).2.2 = .error err ∧
      err.code = SERVER_START_FAILED) :=
  c2_theorem c2State "s" c2Env c2Client c2Err (by decide) (by decide)

/-! ## Claim C3: listTools failure behaviour at the client layer -/

def c3Config : MCPServerConfig := { command := "npx", args := [] }

def c3Client : MCPClient := { serverName := "s", config := c3Config }

def c3BClient : BrowserMCPClient := { serverName := "s", url := "http://localhost:3001" }

/-- C3 (counterexample): a failing listTools at the protocol-client layer
rejects with an MCPError instead of resolving with the empty array: the
browser MCPClient stub always rejects, and the BrowserMCPClient HTTP
variant rejects on a fetch failure. -/
theorem c3_counterexample :
    MCPClient.listTools c3Client =
      .error { message := "MCPClient methods are not supported in browser environment."
               code := TOOL_CALL_FAILED
               serverName := some "s" } ∧
    MCPClient.listTools c3Client ≠ .ok [] ∧
    BrowserMCPClient.listToolsViaHTTP c3BClient (.netFail "TypeError: Failed to fetch") =
      .error { message := "Failed to list tools: TypeError: Failed to fetch"
               code := TOOL_CALL_FAILED
               serverName := some "s"
               originalError := some "TypeError: Failed to fetch" } := by
  decide

/-- C3 (amended claim): a failing listTools rejects with an MCPError at
the protocol-client layer (both the stdio stub and the HTTP variant, for
fetch failures and for non-ok responses); the mapping of a listTools
failure to the empty array happens one level up, inside
MCPProcessManager.startServer, whose catch turns a failed tool listing
into toolCount zero on an otherwise successful start — so it is within
startServer that no tools and list failed are indistinguishable. -/
theorem c3_theorem :
    (∀ c : MCPClient, ∃ e, c.listTools = .error e ∧ e.code = TOOL_CALL_FAILED) ∧
    (∀ (c : BrowserMCPClient) (msg : String),
        ∃ e, c.listToolsViaHTTP (.netFail msg) = .error e ∧ e.code = TOOL_CALL_FAILED) ∧
    (∀ (c : BrowserMCPClient) (status : Nat) (statusText : String)
        (tf : Option (List RawToolEntry)),
        ∃ e, c.listToolsViaHTTP (.httpResp false status statusText tf) = .error e ∧
          e.code = TOOL_CALL_FAILED) ∧
    (∀ (m : MCPProcessManager) (serverName : String) (config : MCPServerConfig)
        (env : StartEnv) (e : MCPError),
        env.connect = .ok () → env.toolsResult = .error e →
        (m.startServer serverName config env).2.2 = .ok () ∧
        ∃ st, mapGet (m.startServer serverName config env).1.serverStatuses serverName = some st ∧
          st.status = .running ∧ st.toolCount = some 0) := by
  refine ⟨fun c => ⟨_, rfl, rfl⟩, fun c msg => ⟨_, rfl, rfl⟩,
    fun c status statusText tf => ⟨_, rfl, rfl⟩, ?_⟩
  intro m serverName config env e hok htools
  constructor
  · simp [MCPProcessManager.startServer, hok]
  · simp only [MCPProcessManager.startServer, hok, htools, updateServerStatus]
    exact ⟨_, mapGet_mapSet_self _ _ _, rfl, rfl⟩

def c3MState : MCPProcessManager := ⟨[], []⟩

def c3ToolsErr : MCPError := { message := "list failed", code := TOOL_CALL_FAILED }

def c3EnvFailTools : StartEnv := { connect := .ok (), toolsResult := .error c3ToolsErr }

/-- C3 (witness): the amended theorem applied to a concrete start whose
tool listing fails. -/
theorem c3_witness :
    (c3MState.startServer "s" c3Config c3EnvFailTools).2.2 = .ok () ∧
    ∃ st, mapGet (c3MState.startServer "s" c3Config c3EnvFailTools).1.serverStatuses "s" =
        some st ∧ st.status = .running ∧ st.toolCount = some 0 :=
  c3_theorem.2.2.2 c3MState "s" c3Config c3EnvFailTools c3ToolsErr (by decide) (by decide)

/-! ## Claim C4: startServer failure sets error status and rejects -/

/-- C4: a startServer call whose connect phase fails (the only fallible
phase — the later getServerInfo and listTools rejections are caught
inside startServer itself) stores status error with a non-empty lastError
string for the name (it is never left at starting), and the call itself
rejects with an MCPError carrying code SERVER_START_FAILED. -/
theorem c4_theorem (m : MCPProcessManager) (serverName : String) (config : MCPServerConfig)
    (env : StartEnv) (e : MCPError)
    (h : env.connect = .error e) :
    (∃ st, mapGet (m.startServer serverName config env).1.serverStatuses serverName = some st ∧
      st.status = .error ∧ ∃ msg, st.error = some msg ∧ msg ≠ "") ∧
    (∃ err, (m.startServer serverName config env).2.2 = .error err ∧
      err.code = SERVER_START_FAILED) := by
  constructor
  · simp only [MCPProcessManager.startServer, h, updateServerStatus]
    exact ⟨_, mapGet_mapSet_self _ _ _, rfl, e.jsString, rfl, e.jsString_ne_empty⟩
  · simp only [MCPProcessManager.startServer, h, updateServerStatus]
    exact ⟨_, rfl, rfl⟩

def c4State : MCPProcessManager := ⟨[], []⟩

def c4Config : MCPServerConfig := { command := "invalid-command-that-does-not-exist", args := ["--invalid"] }

def c4Client : MCPClient := { serverName := "invalid-server", config := c4Config }

def c4Env : StartEnv := { connect := c4Client.connectResult }

/-- C4 (witness): the theorem applied to a start whose connect fails with
the rejection the browser MCPClient stub always produces. -/
theorem c4_witness :
    (∃ st, mapGet (c4State.startServer "invalid-server" c4Config c4Env).1.serverStatuses
        "invalid-server" = some st ∧
      st.status = .error ∧ ∃ msg, st.error = some msg ∧ msg ≠ "") ∧
    (∃ err, (c4State.startServer "invalid-server" c4Config c4Env).2.2 = .error err ∧
      err.code = SERVER_START_FAILED) :=
  c4_theorem c4State "invalid-server" c4Config c4Env
    { message := "MCPClient.connect() is not supported in browser environment. Use BrowserMCPClient instead."
      code := SERVER_CONNECTION_FAILED
      serverName := some "invalid-server" } (by decide)

/-! ## Claim C5: callTool event discipline -/

/-- C5: against a server with a live client, callTool emits
tool_call_started before the dispatch to the client, and exactly one
terminal event afterwards — tool_call_completed when the call resolves,
tool_call_failed when it rejects — as shown by the exact trace for each
outcome and the terminal-event count of one. -/
theorem c5_theorem (m : MCPProcessManager) (serverName toolName : String)
    (env : CallEnv) (c : MCPClient)
    (hc : mapGet m.clients serverName = some c) :
    ((m.callTool serverName toolName env).1.countP isTerminalToolEvent = 1) ∧
    (match env.callResult with
     | .ok r =>
        (m.callTool serverName toolName env).1 =
          [.emit .tool_call_started serverName, .dispatchToolCall serverName toolName,
           .emit .tool_call_completed serverName] ∧
        (m.callTool serverName toolName env).2 = .ok r
     | .error e =>
        (m.callTool serverName toolName env).1 =
          [.emit .tool_call_started serverName, .dispatchToolCall serverName toolName,
           .emit .tool_call_failed serverName] ∧
        (m.callTool serverName toolName env).2 = .error e) := by
  obtain ⟨cr⟩ := env
  cases cr with
  | ok r => simp [MCPProcessManager.callTool, hc, isTerminalToolEvent, List.countP_cons]
  | error e => simp [MCPProcessManager.callTool, hc, isTerminalToolEvent, List.countP_cons]

def c5Config : MCPServerConfig := { command := "uv", args := ["run", "weather.py"] }

def c5Client : MCPClient := { serverName := "weather", config := c5Config }

def c5State : MCPProcessManager :=
  ⟨[("weather", c5Client)], [("weather", { name := "weather", status := .running })]⟩

def c5Env : CallEnv := ⟨.ok { success := true }⟩

/-- C5 (witness): the theorem applied to a concrete successful call. -/
theorem c5_witness :
    ((c5State.callTool "weather" "get_forecast" c5Env).1.countP isTerminalToolEvent = 1) ∧
    ((c5State.callTool "weather" "get_forecast" c5Env).1 =
      [.emit .tool_call_started "weather", .dispatchToolCall "weather" "get_forecast",
       .emit .tool_call_completed "weather"] ∧
     (c5State.callTool "weather" "get_forecast" c5Env).2 = .ok { success := true }) :=
  c5_theorem c5State "weather" "get_forecast" c5Env c5Client (by decide)

/-! ## Claim C6: getServerStatus default for never-started names -/

/-- C6: for a name with no stored status entry, getServerStatus returns
the default status object with state stopped (and every optional field
absent), and the manager state is returned unchanged — querying creates
and mutates nothing. -/
theorem c6_theorem (m : MCPProcessManager) (serverName : String)
    (h : mapGet m.serverStatuses serverName = none) :
    m.getServerStatus serverName = ({ name := serverName, status := .stopped }, m) ∧
    (m.getServerStatus serverName).1.status = .stopped ∧
    (m.getServerStatus serverName).2 = m := by
  simp [MCPProcessManager.getServerStatus, h, defaultStatus]

def c6State : MCPProcessManager :=
  ⟨[], [("other", { name := "other", status := .running })]⟩

/-- C6 (witness): the theorem applied to a name that was never started. -/
theorem c6_witness :
    c6State.getServerStatus "test-server" =
      ({ name := "test-server", status := .stopped }, c6State) ∧
    (c6State.getServerStatus "test-server").1.status = .stopped ∧
    (c6State.getServerStatus "test-server").2 = c6State :=
  c6_theorem c6State "test-server" (by decide)

/-! ## More lemmas about the map model and group insertion -/

theorem mem_keys_mapSet {α : Type} {m : List (String × α)} {k k' : String} {v : α}
    (h : k' ∈ (mapSet m k v).map Prod.fst) : k' ∈ m.map Prod.fst ∨ k' = k := by
  induction m with
  | nil => simpa [mapSet] using h
  | cons p rest ih =>
      obtain ⟨pk, pv⟩ := p
      by_cases hp : pk = k
      · subst hp
        have hms : mapSet ((pk, pv) :: rest) pk v = (pk, v) :: rest := by simp [mapSet]
        rw [hms] at h
        simp only [List.map_cons, List.mem_cons] at h ⊢
        exact Or.inl h
      · simp only [mapSet, if_neg hp, List.map_cons, List.mem_cons] at h
        rcases h with h | h
        · exact Or.inl (by simp [h])
        · rcases ih h with h2 | h2
          · exact Or.inl (by simp [h2])
          · exact Or.inr h2

theorem mapSet_keys_nodup {α : Type} (m : List (String × α)) (k : String) (v : α)
    (h : (m.map Prod.fst).Nodup) : ((mapSet m k v).map Prod.fst).Nodup := by
  induction m with
  | nil => simp [mapSet]
  | cons p rest ih =>
      obtain ⟨pk, pv⟩ := p
      simp only [List.map_cons, List.nodup_cons] at h
      by_cases hp : pk = k
      · subst hp
        have hms : mapSet ((pk, pv) :: rest) pk v = (pk, v) :: rest := by simp [mapSet]
        rw [hms]
        simp only [List.map_cons, List.nodup_cons]
        exact ⟨h.1, h.2⟩
      · simp only [mapSet, if_neg hp, List.map_cons, List.nodup_cons]
        refine ⟨?_, ih h.2⟩
        intro hmem
        rcases mem_keys_mapSet hmem with h2 | h2
        · exact h.1 h2
        · exact hp h2

theorem map_name_groupInsert (sts : List MCPTool) (tool : MCPTool) :
    (groupInsert sts tool).map MCPTool.name =
      if tool.name ∈ sts.map MCPTool.name then sts.map MCPTool.name
      else sts.map MCPTool.name ++ [tool.name] := by
  induction sts with
  | nil => simp [groupInsert]
  | cons h rest ih =>
      by_cases hn : h.name = tool.name
      · simp [groupInsert, hn]
      · have hns : ¬ tool.name = h.name := fun hc => hn hc.symm
        by_cases hm : tool.name ∈ rest.map MCPTool.name
        · simp [groupInsert, hn, hns, hm, ih]
        · simp [groupInsert, hn, hns, hm, ih]

theorem names_nodup_groupInsert (sts : List MCPTool) (tool : MCPTool)
    (hnd : (sts.map MCPTool.name).Nodup) :
    ((groupInsert sts tool).map MCPTool.name).Nodup := by
  rw [map_name_groupInsert]
  by_cases hm : tool.name ∈ sts.map MCPTool.name
  · simpa [hm] using hnd
  · simp [hm, List.nodup_append, hnd]

theorem groupInsert_filter_name (sts : List MCPTool) (tool : MCPTool)
    (hnd : (sts.map MCPTool.name).Nodup) :
    (groupInsert sts tool).filter (fun t => t.name == tool.name) = [tool] := by
  induction sts with
  | nil => simp [groupInsert]
  | cons h rest ih =>
      simp only [List.map_cons, List.nodup_cons] at hnd
      by_cases hn : h.name = tool.name
      · have hz : rest.filter (fun t => t.name == tool.name) = [] := by
          apply List.filter_eq_nil_iff.mpr
          intro t ht
          simp only [beq_iff_eq]
          intro hteq
          apply hnd.1
          rw [hn, ← hteq]
          exact List.mem_map_of_mem MCPTool.name ht
        simp [groupInsert, hn, List.filter_cons, hz]
      · simp [groupInsert, hn, List.filter_cons, ih hnd.2]

theorem groupInsert_countP_name (sts : List MCPTool) (tool : MCPTool)
    (hnd : (sts.map MCPTool.name).Nodup) :
    (groupInsert sts tool).countP (fun t => t.name == tool.name) = 1 := by
  have h := groupInsert_filter_name sts tool hnd
  have h2 := congrArg List.length h
  simpa [List.countP_eq_length_filter] using h2

/-! ## Claim C8: re-registration updates in place -/

theorem registerTool_tools (r : MCPToolRegistry) (tool : MCPTool) :
    (r.registerTool tool).tools = mapSet r.tools (toolKey tool) tool := rfl

theorem registerTool_serverTools (r : MCPToolRegistry) (tool : MCPTool) :
    (r.registerTool tool).serverTools =
      mapSet r.serverTools (jsOrString tool.serverName "unknown")
        (groupInsert ((mapGet r.serverTools (jsOrString tool.serverName "unknown")).getD [])
          tool) := rfl

/-- C8: registering a tool and then a second tool with the same
(serverName, name) but a different description leaves exactly one stored
tool under that key in the flat map and exactly one tool with that name
in the per-server group, and both carry the second (latest) tool value,
hence its description. The registry is assumed duplicate-free (keys in
the flat map, names in the affected group), as every registry reachable
through registerTool is. -/
theorem c8_theorem (r : MCPToolRegistry) (t1 t2 : MCPTool)
    (hnd : (r.tools.map Prod.fst).Nodup)
    (hgnd : ((r.getServerTools (jsOrString t1.serverName "unknown")).map MCPTool.name).Nodup)
    (hs : t1.serverName = t2.serverName) (hn : t1.name = t2.name)
    (hdesc : t1.description ≠ t2.description) :
    ((r.registerTool t1).registerTool t2).tools.countP (fun p => p.1 == toolKey t2) = 1 ∧
    mapGet ((r.registerTool t1).registerTool t2).tools (toolKey t2) = some t2 ∧
    (((r.registerTool t1).registerTool t2).getServerTools
        (jsOrString t2.serverName "unknown")).filter (fun t => t.name == t2.name) = [t2] ∧
    (((r.registerTool t1).registerTool t2).getServerTools
        (jsOrString t2.serverName "unknown")).countP (fun t => t.name == t2.name) = 1 := by
  have hkey : toolKey t1 = toolKey t2 := by simp [toolKey, hs, hn]
  have hg : jsOrString t1.serverName "unknown" = jsOrString t2.serverName "unknown" := by
    rw [hs]
  simp only [MCPToolRegistry.getServerTools] at hgnd
  rw [hg] at hgnd
  refine ⟨?_, ?_, ?_, ?_⟩
  · rw [registerTool_tools, registerTool_tools, hkey]
    exact mapSet_countP_key _ _ _ (mapSet_keys_nodup _ _ _ hnd)
  · rw [registerTool_tools, registerTool_tools]
    exact mapGet_mapSet_self _ _ _
  · simp only [MCPToolRegistry.getServerTools, registerTool_serverTools]
    rw [hg]
    simp only [mapGet_mapSet_self, Option.getD_some]
    exact groupInsert_filter_name _ _ (names_nodup_groupInsert _ _ hgnd)
  · simp only [MCPToolRegistry.getServerTools, registerTool_serverTools]
    rw [hg]
    simp only [mapGet_mapSet_self, Option.getD_some]
    exact groupInsert_countP_name _ _ (names_nodup_groupInsert _ _ hgnd)

def c8T1 : MCPTool :=
  { name := "get_forecast", description := some "old description"
    serverName := some "weather-server" }

def c8T2 : MCPTool :=
  { name := "get_forecast", description := some "new description"
    serverName := some "weather-server" }

/-- C8 (witness): the theorem applied to two concrete registrations of
the same (server, name) pair with different descriptions, on the empty
registry. -/
theorem c8_witness :
    ((MCPToolRegistry.empty.registerTool c8T1).registerTool c8T2).tools.countP
      (fun p => p.1 == toolKey c8T2) = 1 ∧
    mapGet ((MCPToolRegistry.empty.registerTool c8T1).registerTool c8T2).tools
      (toolKey c8T2) = some c8T2 ∧
    (((MCPToolRegistry.empty.registerTool c8T1).registerTool c8T2).getServerTools
        (jsOrString c8T2.serverName "unknown")).filter (fun t => t.name == c8T2.name) = [c8T2] ∧
    (((MCPToolRegistry.empty.registerTool c8T1).registerTool c8T2).getServerTools
        (jsOrString c8T2.serverName "unknown")).countP (fun t => t.name == c8T2.name) = 1 :=
  c8_theorem MCPToolRegistry.empty c8T1 c8T2 (by decide) (by decide) (by decide) (by decide)
    (by decide)

/-! ## Claim C9: deterministic categorization with a fixed category set -/

def c9Tools : List MCPTool :=
  [{ name := "file-read", serverName := some "srv" },
   { name := "http-get", serverName := some "srv" },
   { name := "json-parse", serverName := some "srv" },
   { name := "system-info", serverName := some "srv" },
   { name := "mystery-tool", serverName := some "srv" }]

def c9Registry : MCPToolRegistry := MCPToolRegistry.empty.registerTools c9Tools

/-- C9: categorizeToolByName is a pure function into the fixed category
set (filesystem, network, data, system, other), and on the registry
holding exactly the tools file-read, http-get, json-parse, system-info
and mystery-tool, getToolsByCategory yields buckets of size one each. -/
theorem c9_theorem :
    (∀ n : String,
      MCPToolRegistry.categorizeToolByName n = "filesystem" ∨
      MCPToolRegistry.categorizeToolByName n = "network" ∨
      MCPToolRegistry.categorizeToolByName n = "data" ∨
      MCPToolRegistry.categorizeToolByName n = "system" ∨
      MCPToolRegistry.categorizeToolByName n = "other") ∧
    (c9Registry.getAllTools.map MCPTool.name =
      ["file-read", "http-get", "json-parse", "system-info", "mystery-tool"]) ∧
    c9Registry.getToolsByCategory.filesystem.length = 1 ∧
    c9Registry.getToolsByCategory.network.length = 1 ∧
    c9Registry.getToolsByCategory.data.length = 1 ∧
    c9Registry.getToolsByCategory.system.length = 1 ∧
    c9Registry.getToolsByCategory.other.length = 1 := by
  constructor
  · intro n
    unfold MCPToolRegistry.categorizeToolByName
    dsimp only
    split
    · exact Or.inl rfl
    split
    · exact Or.inr (Or.inl rfl)
    split
    · exact Or.inr (Or.inr (Or.inl rfl))
    split
    · exact Or.inr (Or.inr (Or.inr (Or.inl rfl)))
    · exact Or.inr (Or.inr (Or.inr (Or.inr rfl)))
  · decide

/-! ## Claim C10: tools with an undefined server name -/

/-- C10: a tool registered with serverName undefined lands in the
per-server group named "unknown" while its flat key interpolates to
"undefined:name"; clearServerTools("unknown") therefore empties
getServerTools("unknown") but deletes only "unknown:"-prefixed flat keys,
so the tool survives in getAllTools. -/
theorem c10_theorem (t : MCPTool) (h : t.serverName = none) :
    (MCPToolRegistry.empty.registerTool t).getServerTools "unknown" = [t] ∧
    mapGet (MCPToolRegistry.empty.registerTool t).tools ("undefined" ++ ":" ++ t.name) =
      some t ∧
    ((MCPToolRegistry.empty.registerTool t).clearServerTools "unknown").getServerTools
      "unknown" = [] ∧
    t ∈ ((MCPToolRegistry.empty.registerTool t).clearServerTools "unknown").getAllTools := by
  have hne : ("undefined" ++ ":" ++ t.name) ≠ ("unknown" ++ ":" ++ t.name) := by
    intro hc
    rw [String.ext_iff] at hc
    simp at hc
  have hne2 : ¬ (("undefined:" ++ t.name) = ("unknown:" ++ t.name)) := by
    intro hc
    rw [String.ext_iff] at hc
    simp at hc
  refine ⟨?_, ?_, ?_, ?_⟩
  · simp [MCPToolRegistry.registerTool, MCPToolRegistry.getServerTools, MCPToolRegistry.empty,
      jsOrString, h, groupInsert, mapSet, mapGet]
  · simp [MCPToolRegistry.registerTool, MCPToolRegistry.empty, toolKey, jsInterp, h,
      mapSet, mapGet]
  · simp [MCPToolRegistry.registerTool, MCPToolRegistry.clearServerTools,
      MCPToolRegistry.getServerTools, MCPToolRegistry.empty, jsOrString, h, groupInsert,
      mapSet, mapGet, mapDelete]
  · simp [MCPToolRegistry.registerTool, MCPToolRegistry.clearServerTools,
      MCPToolRegistry.getAllTools, MCPToolRegistry.empty, jsOrString, jsInterp, toolKey, h,
      groupInsert, mapSet, mapGet, mapDelete, hne, hne2]

def c10Tool : MCPTool := { name := "orphan-tool" }

/-- C10 (witness): the theorem applied to a concrete tool without a
server name. -/
theorem c10_witness :
    (MCPToolRegistry.empty.registerTool c10Tool).getServerTools "unknown" = [c10Tool] ∧
    mapGet (MCPToolRegistry.empty.registerTool c10Tool).tools
      ("undefined" ++ ":" ++ c10Tool.name) = some c10Tool ∧
    ((MCPToolRegistry.empty.registerTool c10Tool).clearServerTools "unknown").getServerTools
      "unknown" = [] ∧
    c10Tool ∈
      ((MCPToolRegistry.empty.registerTool c10Tool).clearServerTools "unknown").getAllTools :=
  c10_theorem c10Tool (by decide)

/-! ## Colon-free keys and further membership lemmas (towards C7) -/

/-- A string free of the colon used to build composite registry keys. -/
def noColon (s : String) : Prop := ':' ∉ s.data

instance (s : String) : Decidable (noColon s) := by
  unfold noColon
  infer_instance

theorem list_colon_inj {l1 l2 r1 r2 : List Char}
    (h1 : ':' ∉ l1) (h2 : ':' ∉ l2)
    (h : l1 ++ ':' :: r1 = l2 ++ ':' :: r2) : l1 = l2 ∧ r1 = r2 := by
  induction l1 generalizing l2 with
  | nil =>
      cases l2 with
      | nil => simpa using h
      | cons b bs =>
          simp only [List.nil_append, List.cons_append, List.cons.injEq] at h
          exfalso
          apply h2
          rw [← h.1]
          exact List.mem_cons_self _ _
  | cons a as ih =>
      cases l2 with
      | nil =>
          simp only [List.nil_append, List.cons_append, List.cons.injEq] at h
          exfalso
          apply h1
          rw [h.1]
          exact List.mem_cons_self _ _
      | cons b bs =>
          simp only [List.cons_append, List.cons.injEq] at h
          obtain ⟨hab, htail⟩ := h
          have h1' : ':' ∉ as := fun hm => h1 (List.mem_cons_of_mem _ hm)
          have h2' : ':' ∉ bs := fun hm => h2 (List.mem_cons_of_mem _ hm)
          obtain ⟨hl, hr⟩ := ih h1' h2' htail
          exact ⟨by rw [hab, hl], hr⟩

theorem colon_key_inj {a b c d : String}
    (ha : noColon a) (hc : noColon c)
    (h : a ++ ":" ++ b = c ++ ":" ++ d) : a = c ∧ b = d := by
  rw [String.ext_iff] at h
  have h' : a.data ++ ':' :: b.data = c.data ++ ':' :: d.data := by
    simpa using h
  obtain ⟨h1, h2⟩ := list_colon_inj ha hc h'
  exact ⟨String.ext_iff.mpr h1, String.ext_iff.mpr h2⟩

theorem mem_mapSet_self {α : Type} (m : List (String × α)) (k : String) (v : α) :
    (k, v) ∈ mapSet m k v := by
  induction m with
  | nil => simp [mapSet]
  | cons q rest ih =>
      obtain ⟨qk, qv⟩ := q
      by_cases hq : qk = k
      · simp [mapSet, hq]
      · simp only [mapSet, if_neg hq]
        exact List.mem_cons_of_mem _ ih

theorem mem_mapSet_of_ne {α : Type} {m : List (String × α)} {k : String} {v : α}
    {p : String × α} (hp : p ∈ m) (hne : p.1 ≠ k) : p ∈ mapSet m k v := by
  induction m with
  | nil => cases hp
  | cons q rest ih =>
      obtain ⟨qk, qv⟩ := q
      rcases List.mem_cons.mp hp with h | h
      · by_cases hq : qk = k
        · exfalso
          apply hne
          rw [h]
          exact hq
        · simp only [mapSet, if_neg hq]
          exact h ▸ List.mem_cons_self _ _
      · by_cases hq : qk = k
        · simp only [mapSet, if_pos hq]
          exact List.mem_cons_of_mem _ h
        · simp only [mapSet, if_neg hq]
          exact List.mem_cons_of_mem _ (ih h)

theorem mem_mapSet_elim {α : Type} {m : List (String × α)} {k : String} {v : α}
    {p : String × α} (hnd : (m.map Prod.fst).Nodup) (hp : p ∈ mapSet m k v) :
    p = (k, v) ∨ (p ∈ m ∧ p.1 ≠ k) := by
  induction m with
  | nil =>
      simp only [mapSet, List.mem_singleton] at hp
      exact Or.inl hp
  | cons q rest ih =>
      obtain ⟨qk, qv⟩ := q
      simp only [List.map_cons, List.nodup_cons] at hnd
      by_cases hq : qk = k
      · subst hq
        have hms : mapSet ((qk, qv) :: rest) qk v = (qk, v) :: rest := by simp [mapSet]
        rw [hms] at hp
        rcases List.mem_cons.mp hp with h | h
        · exact Or.inl h
        · refine Or.inr ⟨List.mem_cons_of_mem _ h, ?_⟩
          intro hpk
          exact hnd.1 (hpk ▸ List.mem_map_of_mem Prod.fst h)
      · rw [show mapSet ((qk, qv) :: rest) k v = (qk, qv) :: mapSet rest k v from by
          simp [mapSet, hq]] at hp
        rcases List.mem_cons.mp hp with h | h
        · refine Or.inr ⟨h ▸ List.mem_cons_self _ _, ?_⟩
          rw [h]
          exact hq
        · rcases ih hnd.2 h with h2 | h2
          · exact Or.inl h2
          · exact Or.inr ⟨List.mem_cons_of_mem _ h2.1, h2.2⟩

theorem mapGet_of_mem_nodup {α : Type} {m : List (String × α)} {k : String} {v : α}
    (hnd : (m.map Prod.fst).Nodup) (hm : (k, v) ∈ m) : mapGet m k = some v := by
  induction m with
  | nil => cases hm
  | cons q rest ih =>
      obtain ⟨qk, qv⟩ := q
      simp only [List.map_cons, List.nodup_cons] at hnd
      rcases List.mem_cons.mp hm with h | h
      · obtain ⟨h1, h2⟩ := Prod.mk.injEq .. ▸ h
        simp [mapGet, h1.symm, h2]
      · by_cases hq : qk = k
        · exfalso
          apply hnd.1
          subst hq
          exact List.mem_map_of_mem Prod.fst h
        · simp [mapGet, hq, ih hnd.2 h]

theorem mem_groupInsert_elim {sts : List MCPTool} {tool t : MCPTool}
    (h : t ∈ groupInsert sts tool) : t = tool ∨ t ∈ sts := by
  induction sts with
  | nil =>
      simp only [groupInsert, List.mem_singleton] at h
      exact Or.inl h
  | cons u rest ih =>
      by_cases hu : u.name = tool.name
      · simp only [groupInsert, if_pos hu] at h
        rcases List.mem_cons.mp h with h2 | h2
        · exact Or.inl h2
        · exact Or.inr (List.mem_cons_of_mem _ h2)
      · simp only [groupInsert, if_neg hu] at h
        rcases List.mem_cons.mp h with h2 | h2
        · exact Or.inr (h2 ▸ List.mem_cons_self _ _)
        · rcases ih h2 with h3 | h3
          · exact Or.inl h3
          · exact Or.inr (List.mem_cons_of_mem _ h3)

theorem groupInsert_mem_self (sts : List MCPTool) (tool : MCPTool) :
    tool ∈ groupInsert sts tool := by
  induction sts with
  | nil => simp [groupInsert]
  | cons u rest ih =>
      by_cases hu : u.name = tool.name
      · simp [groupInsert, hu]
      · simp only [groupInsert, if_neg hu]
        exact List.mem_cons_of_mem _ ih

theorem mem_groupInsert_of_ne {sts : List MCPTool} {tool t : MCPTool}
    (h : t ∈ sts) (hn : t.name ≠ tool.name) : t ∈ groupInsert sts tool := by
  induction sts with
  | nil => cases h
  | cons u rest ih =>
      rcases List.mem_cons.mp h with h2 | h2
      · by_cases hu : u.name = tool.name
        · exfalso
          apply hn
          rw [h2]
          exact hu
        · simp only [groupInsert, if_neg hu]
          exact h2 ▸ List.mem_cons_self _ _
      · by_cases hu : u.name = tool.name
        · simp only [groupInsert, if_pos hu]
          exact List.mem_cons_of_mem _ h2
        · simp only [groupInsert, if_neg hu]
          exact List.mem_cons_of_mem _ (ih h2)

theorem groupInsert_eq_of_name_eq {sts : List MCPTool} {tool t : MCPTool}
    (hnd : (sts.map MCPTool.name).Nodup)
    (ht : t ∈ groupInsert sts tool) (hn : t.name = tool.name) : t = tool :=
  List.inj_on_of_nodup_map (names_nodup_groupInsert sts tool hnd) ht
    (groupInsert_mem_self sts tool) hn

theorem foldl_mapDelete_sublist {α β : Type} (f : β → String) (l : List β)
    (m0 : List (String × α)) :
    List.Sublist (l.foldl (fun m u => mapDelete m (f u)) m0) m0 := by
  induction l generalizing m0 with
  | nil => exact List.Sublist.refl _
  | cons u us ih =>
      simp only [List.foldl_cons]
      exact (ih (mapDelete m0 (f u))).trans (List.filter_sublist _)

theorem mem_foldl_mapDelete {α β : Type} (f : β → String) (l : List β)
    (m0 : List (String × α)) (p : String × α) :
    p ∈ l.foldl (fun m u => mapDelete m (f u)) m0 ↔
      p ∈ m0 ∧ ∀ u ∈ l, p.1 ≠ f u := by
  induction l generalizing m0 with
  | nil => simp
  | cons u us ih =>
      simp only [List.foldl_cons]
      rw [ih]
      constructor
      · rintro ⟨hm, hall⟩
        have hmd : p ∈ m0 ∧ p.1 ≠ f u := by
          simpa [mapDelete, List.mem_filter] using hm
        refine ⟨hmd.1, ?_⟩
        intro w hw
        rcases List.mem_cons.mp hw with h | h
        · exact h ▸ hmd.2
        · exact hall w h
      · rintro ⟨hm, hall⟩
        refine ⟨?_, fun w hw => hall w (List.mem_cons_of_mem _ hw)⟩
        simp [mapDelete, List.mem_filter, hm, hall u (List.mem_cons_self _ _)]

/-! ## Well-formedness of registry states (towards C7)

Every registry reachable through registerTool from the empty registry,
feeding it only tools with a nonempty, colon-free server name and a
colon-free tool name, satisfies RegWF: the two indexes are duplicate-free
and mutually consistent, and every composite key decomposes uniquely.
The colon-freedom matters: composite keys are built by plain string
concatenation, so names containing a colon can collide across servers
(see the C7 counterexample). -/

structure RegWF (r : MCPToolRegistry) : Prop where
  flatKeysNodup : (r.tools.map Prod.fst).Nodup
  groupKeysNodup : (r.serverTools.map Prod.fst).Nodup
  flatEntry : ∀ p ∈ r.tools, ∃ s : String,
    p.2.serverName = some s ∧ s ≠ "" ∧ noColon s ∧ noColon p.2.name ∧
    p.1 = s ++ ":" ++ p.2.name ∧
    ∃ ts, mapGet r.serverTools s = some ts ∧ p.2 ∈ ts
  groupKeyOk : ∀ q ∈ r.serverTools, q.1 ≠ "" ∧ noColon q.1 ∧ (q.2.map MCPTool.name).Nodup
  groupEntry : ∀ q ∈ r.serverTools, ∀ t ∈ q.2,
    t.serverName = some q.1 ∧ noColon t.name ∧
    mapGet r.tools (q.1 ++ ":" ++ t.name) = some t

theorem RegWF_empty : RegWF MCPToolRegistry.empty := by
  refine ⟨?_, ?_, ?_, ?_, ?_⟩ <;> simp [MCPToolRegistry.empty]

theorem clearServerTools_eq (r : MCPToolRegistry) (s : String) :
    r.clearServerTools s =
      ⟨((mapGet r.serverTools s).getD []).foldl
          (fun m t => mapDelete m (s ++ ":" ++ t.name)) r.tools,
       mapDelete r.serverTools s⟩ := rfl

theorem RegWF_registerTool (r : MCPToolRegistry) (tool : MCPTool) (s : String)
    (hwf : RegWF r) (hs : tool.serverName = some s) (hne : s ≠ "")
    (hcs : noColon s) (hcn : noColon tool.name) :
    RegWF (r.registerTool tool) := by
  have hkey : toolKey tool = s ++ ":" ++ tool.name := by simp [toolKey, jsInterp, hs]
  have hgk : jsOrString tool.serverName "unknown" = s := by simp [jsOrString, hs, hne]
  have hstsnd : (((mapGet r.serverTools s).getD []).map MCPTool.name).Nodup := by
    cases hmg : mapGet r.serverTools s with
    | none => simp
    | some ts =>
        simp only [Option.getD_some]
        exact (hwf.groupKeyOk (s, ts) (mapGet_mem hmg)).2.2
  have hr' : r.registerTool tool =
      ⟨mapSet r.tools (toolKey tool) tool,
       mapSet r.serverTools s (groupInsert ((mapGet r.serverTools s).getD []) tool)⟩ := by
    simp [MCPToolRegistry.registerTool, hgk]
  rw [hr']
  refine ⟨?_, ?_, ?_, ?_, ?_⟩
  · exact mapSet_keys_nodup _ _ _ hwf.flatKeysNodup
  · exact mapSet_keys_nodup _ _ _ hwf.groupKeysNodup
  · intro p hp
    rcases mem_mapSet_elim hwf.flatKeysNodup hp with hnew | ⟨hold, hkne⟩
    · subst hnew
      exact ⟨s, hs, hne, hcs, hcn, hkey,
        groupInsert ((mapGet r.serverTools s).getD []) tool,
        mapGet_mapSet_self _ _ _, groupInsert_mem_self _ _⟩
    · obtain ⟨s0, hserv, hs0ne, hs0c, hnc0, hkeq, ts, hts, htm⟩ := hwf.flatEntry p hold
      by_cases hss : s0 = s
      · subst hss
        refine ⟨s0, hserv, hs0ne, hs0c, hnc0, hkeq, _, mapGet_mapSet_self _ _ _, ?_⟩
        have hgetd : (mapGet r.serverTools s0).getD [] = ts := by rw [hts]; rfl
        rw [hgetd]
        apply mem_groupInsert_of_ne htm
        intro hnn
        apply hkne
        rw [hkeq, hkey, hnn]
      · refine ⟨s0, hserv, hs0ne, hs0c, hnc0, hkeq, ts, ?_, htm⟩
        rw [mapGet_mapSet_ne _ _ _ _ hss]
        exact hts
  · intro q hq
    rcases mem_mapSet_elim hwf.groupKeysNodup hq with hnew | ⟨hold, _⟩
    · subst hnew
      exact ⟨hne, hcs, names_nodup_groupInsert _ _ hstsnd⟩
    · exact hwf.groupKeyOk q hold
  · intro q hq t ht
    rcases mem_mapSet_elim hwf.groupKeysNodup hq with hnew | ⟨hold, hqne⟩
    · subst hnew
      by_cases htn : t.name = tool.name
      · have ht2 : t = tool := groupInsert_eq_of_name_eq hstsnd ht htn
        refine ⟨by rw [ht2]; exact hs, by rw [ht2]; exact hcn, ?_⟩
        rw [ht2, show s ++ ":" ++ tool.name = toolKey tool from hkey.symm]
        exact mapGet_mapSet_self _ _ _
      · rcases mem_groupInsert_elim ht with ht2 | ht2
        · exfalso
          rw [ht2] at htn
          exact htn rfl
        · cases hmg : mapGet r.serverTools s with
          | none =>
              rw [hmg] at ht2
              simp at ht2
          | some ts =>
              rw [hmg] at ht2
              simp only [Option.getD_some] at ht2
              obtain ⟨hserv, hnc, hflat⟩ := hwf.groupEntry (s, ts) (mapGet_mem hmg) t ht2
              refine ⟨hserv, hnc, ?_⟩
              have hkk : (s ++ ":" ++ t.name) ≠ toolKey tool := by
                rw [hkey]
                intro hc
                exact htn (colon_key_inj hcs hcs hc).2
              rw [mapGet_mapSet_ne _ _ _ _ hkk]
              exact hflat
    · obtain ⟨hserv, hnc, hflat⟩ := hwf.groupEntry q hold t ht
      have hqok := hwf.groupKeyOk q hold
      refine ⟨hserv, hnc, ?_⟩
      have hkk : (q.1 ++ ":" ++ t.name) ≠ toolKey tool := by
        rw [hkey]
        intro hc
        exact hqne (colon_key_inj hqok.2.1 hcs hc).1
      rw [mapGet_mapSet_ne _ _ _ _ hkk]
      exact hflat

theorem RegWF_clearServerTools (r : MCPToolRegistry) (s : String) (hwf : RegWF r) :
    RegWF (r.clearServerTools s) := by
  have hnd' : ((((mapGet r.serverTools s).getD []).foldl
      (fun m u => mapDelete m (s ++ ":" ++ u.name)) r.tools).map Prod.fst).Nodup :=
    (List.Sublist.map Prod.fst (foldl_mapDelete_sublist _ _ _)).nodup hwf.flatKeysNodup
  rw [clearServerTools_eq]
  refine ⟨hnd', ?_, ?_, ?_, ?_⟩
  · exact (List.Sublist.map Prod.fst (List.filter_sublist _)).nodup hwf.groupKeysNodup
  · intro p hp
    obtain ⟨hold, hall⟩ := (mem_foldl_mapDelete _ _ _ _).mp hp
    obtain ⟨s0, hserv, hs0ne, hs0c, hnc0, hkeq, ts, hts, htm⟩ := hwf.flatEntry p hold
    by_cases hss : s0 = s
    · exfalso
      subst hss
      have hgetd : (mapGet r.serverTools s0).getD [] = ts := by rw [hts]; rfl
      exact hall p.2 (by rw [hgetd]; exact htm) hkeq
    · refine ⟨s0, hserv, hs0ne, hs0c, hnc0, hkeq, ts, ?_, htm⟩
      rw [mapGet_mapDelete_ne _ _ _ hss]
      exact hts
  · intro q hq
    exact hwf.groupKeyOk q (List.mem_of_mem_filter hq)
  · intro q hq t ht
    have hold : q ∈ r.serverTools := List.mem_of_mem_filter hq
    have hqne : q.1 ≠ s := by simpa using List.of_mem_filter hq
    obtain ⟨hserv, hnc, hflat⟩ := hwf.groupEntry q hold t ht
    refine ⟨hserv, hnc, ?_⟩
    apply mapGet_of_mem_nodup hnd'
    rw [mem_foldl_mapDelete]
    refine ⟨mapGet_mem hflat, ?_⟩
    intro u hu
    cases hmg : mapGet r.serverTools s with
    | none =>
        rw [hmg] at hu
        simp at hu
    | some ts2 =>
        rw [hmg] at hu
        simp only [Option.getD_some] at hu
        have hsinfo := hwf.groupKeyOk (s, ts2) (mapGet_mem hmg)
        intro hc
        exact hqne (colon_key_inj (hwf.groupKeyOk q hold).2.1 hsinfo.2.1 hc).1

/-! ## Claim C7: clearServerTools frame property -/

def c7ToolA : MCPTool := { name := "b:c", serverName := some "a" }

def c7ToolB : MCPTool := { name := "c", serverName := some "a:b" }

def c7Reg : MCPToolRegistry :=
  (MCPToolRegistry.empty.registerTool c7ToolA).registerTool c7ToolB

/-- C7 (counterexample): composite keys are built by plain string
concatenation, so the tool named "b:c" of server "a" and the tool named
"c" of server "a:b" share the flat key "a:b:c"; clearing server "a" then
deletes that key and removes the tool owned by the different server
"a:b" from getAllTools, refuting the claim for arbitrary registry states
and server names. -/
theorem c7_counterexample :
    c7ToolB.serverName = some "a:b" ∧ "a:b" ≠ "a" ∧
    c7ToolB ∈ c7Reg.getAllTools ∧
    c7ToolB ∉ (c7Reg.clearServerTools "a").getAllTools := by
  decide

/-- C7 (amended claim): for well-formed registries — both indexes
duplicate-free and mutually consistent, every stored tool owned by a
nonempty, colon-free server name and carrying a colon-free tool name, as
holds for every registry built by registerTool from such tools —
clearServerTools(s) removes every tool owned by s from getAllTools,
empties getServerTools(s), preserves membership in getAllTools for every
tool owned by any other server, and leaves getServerTools of every other
server name exactly unchanged. -/
theorem c7_theorem (r : MCPToolRegistry) (s : String) (hwf : RegWF r) :
    (∀ t : MCPTool, t.serverName = some s → t ∉ (r.clearServerTools s).getAllTools) ∧
    (r.clearServerTools s).getServerTools s = [] ∧
    (∀ (t : MCPTool) (s' : String), t.serverName = some s' → s' ≠ s →
      (t ∈ (r.clearServerTools s).getAllTools ↔ t ∈ r.getAllTools)) ∧
    (∀ s' : String, s' ≠ s →
      (r.clearServerTools s).getServerTools s' = r.getServerTools s') := by
  refine ⟨?_, ?_, ?_, ?_⟩
  · intro t hts hmem
    rw [clearServerTools_eq] at hmem
    obtain ⟨p, hp, hpt⟩ := List.mem_map.mp hmem
    obtain ⟨hold, hall⟩ := (mem_foldl_mapDelete _ _ _ _).mp hp
    obtain ⟨s0, hserv, _, _, _, hkeq, ts, hts2, htm⟩ := hwf.flatEntry p hold
    rw [hpt, hts] at hserv
    have hs0 : s0 = s := (Option.some.injEq _ _ ▸ hserv).symm
    subst hs0
    have hgetd : (mapGet r.serverTools s0).getD [] = ts := by rw [hts2]; rfl
    exact hall p.2 (by rw [hgetd]; exact htm) hkeq
  · rw [clearServerTools_eq]
    simp [MCPToolRegistry.getServerTools, mapGet_mapDelete_self]
  · intro t s' hts hss
    rw [clearServerTools_eq]
    constructor
    · intro hmem
      obtain ⟨p, hp, hpt⟩ := List.mem_map.mp hmem
      obtain ⟨hold, _⟩ := (mem_foldl_mapDelete _ _ _ _).mp hp
      exact List.mem_map.mpr ⟨p, hold, hpt⟩
    · intro hmem
      obtain ⟨p, hp, hpt⟩ := List.mem_map.mp hmem
      obtain ⟨s0, hserv, _, hs0c, _, hkeq, ts, hts2, htm⟩ := hwf.flatEntry p hp
      rw [hpt, hts] at hserv
      have hs0 : s0 = s' := (Option.some.injEq _ _ ▸ hserv).symm
      subst hs0
      refine List.mem_map.mpr ⟨p, ?_, hpt⟩
      rw [mem_foldl_mapDelete]
      refine ⟨hp, ?_⟩
      intro u hu
      cases hmg : mapGet r.serverTools s with
      | none =>
          rw [hmg] at hu
          simp at hu
      | some ts2 =>
          rw [hmg] at hu
          simp only [Option.getD_some] at hu
          have hsinfo := hwf.groupKeyOk (s, ts2) (mapGet_mem hmg)
          rw [hkeq]
          intro hc
          exact hss (colon_key_inj hs0c hsinfo.2.1 hc).1
  · intro s' hss
    rw [clearServerTools_eq]
    simp only [MCPToolRegistry.getServerTools]
    rw [mapGet_mapDelete_ne _ _ _ hss]

def c7WTool1 : MCPTool := { name := "tool1", serverName := some "srv" }

def c7WTool2 : MCPTool := { name := "tool2", serverName := some "other" }

def c7WReg : MCPToolRegistry :=
  (MCPToolRegistry.empty.registerTool c7WTool1).registerTool c7WTool2

/-- C7 (witness): the amended theorem applied to a concrete well-formed
two-server registry, well-formedness being discharged through the
preservation lemmas. -/
theorem c7_witness :
    c7WTool1 ∉ (c7WReg.clearServerTools "srv").getAllTools ∧
    (c7WReg.clearServerTools "srv").getServerTools "srv" = [] ∧
    (c7WTool2 ∈ (c7WReg.clearServerTools "srv").getAllTools ↔
      c7WTool2 ∈ c7WReg.getAllTools) ∧
    (c7WReg.clearServerTools "srv").getServerTools "other" =
      c7WReg.getServerTools "other" := by
  have hwf : RegWF c7WReg :=
    RegWF_registerTool _ c7WTool2 "other"
      (RegWF_registerTool _ c7WTool1 "srv" RegWF_empty rfl (by decide) (by decide)
        (by decide))
      rfl (by decide) (by decide) (by decide)
  have h := c7_theorem c7WReg "srv" hwf
  exact ⟨h.1 c7WTool1 rfl, h.2.1, h.2.2.1 c7WTool2 "other" rfl (by decide),
    h.2.2.2 "other" (by decide)⟩
